import Mathlib

/-!
Verification development for the edge-geometry and property-derivation
pipeline of the `xequinet` repository (files `src/xequinet/nn/basic.py`,
`src/xequinet/nn/model.py`, `src/xequinet/utils/keys.py`).

Modelling conventions:

* Tensor values are exact rationals (`ℚ`); the real numbers enter only for
  Euclidean norms (`torch.linalg.norm`) and for derivative statements.
* Tensors that live in the autograd graph are represented symbolically: a
  tensor entry is an `Expr`, a polynomial expression over the two autograd
  leaves of the pipeline, the positions tensor (`Expr.posC`) and the strain
  tensor (`Expr.strainC`).  A tensor that does not require gradients holds
  only `Expr.const` entries.  The numeric value of an entry is obtained by
  evaluating at a valuation `Pt` assigning values to the leaves.
* A torch `(n, …)`-shaped tensor is modelled as its leading size together
  with a total function from the leading index; out-of-range entries are
  irrelevant junk.
* The batch dictionary (`Dict[str, torch.Tensor]`) is an association list
  from string keys to tensor values; Python `KeyError` and dtype/kind
  mismatches surface as `Except.error`.
* `torch.autograd.grad` is modelled after its documented semantics: since
  the source never passes `allow_unused=True`, an input tensor that is not
  reachable in the autograd graph of the outputs raises a `RuntimeError`
  (the call never returns `None` entries in that configuration).
-/

namespace Xequinet

/-! ## Keys (src/xequinet/utils/keys.py) -/

namespace keys

def POSITIONS : String := "pos"

def ATOMIC_NUMBERS : String := "atomic_numbers"

def EDGE_INDEX : String := "edge_index"

def CELL_OFFSETS : String := "cell_offsets"

def CELL : String := "cell"

def BATCH : String := "batch"

def BATCH_PTR : String := "ptr"

def EDGE_LENGTH : String := "edge_length"

def EDGE_VECTOR : String := "edge_vector"

def STRAIN : String := "strain"

def TOTAL_ENERGY : String := "energy"

def FORCES : String := "forces"

def VIRIAL : String := "virial"

end keys

/-! ## Symbolic tensor entries

An `Expr` is a scalar in the autograd graph: a polynomial over the position
leaf components `posC a i` (atom `a`, coordinate `i`) and the strain leaf
components `strainC g i j` (structure `g`, matrix entry `(i, j)`). -/

inductive Expr : Type where
  | const : ℚ → Expr
  | posC : ℕ → Fin 3 → Expr
  | strainC : ℕ → Fin 3 → Fin 3 → Expr
  | add : Expr → Expr → Expr
  | mul : Expr → Expr → Expr
  | neg : Expr → Expr
deriving DecidableEq

instance : Add Expr := ⟨Expr.add⟩

instance : Mul Expr := ⟨Expr.mul⟩

instance : Neg Expr := ⟨Expr.neg⟩

/-- Subtraction of graph scalars, `a - b = a + (-b)`. -/
def Expr.sub (a b : Expr) : Expr := a + (-b)

instance : Sub Expr := ⟨Expr.sub⟩

/-- Sum of three scalars: the contraction over a dimension of extent 3
(the last axis of positions / cells / offsets). -/
def sum3 (f : Fin 3 → Expr) : Expr := f 0 + f 1 + f 2

/-- A valuation of the autograd leaves: the numeric contents of the
positions tensor and of the strain tensor. -/
structure Pt where
  posv : ℕ → Fin 3 → ℚ
  strainv : ℕ → Fin 3 → Fin 3 → ℚ

/-- Rational evaluation of a graph scalar at a leaf valuation. -/
def evalQ (ρ : Pt) : Expr → ℚ
  | .const c => c
  | .posC a i => ρ.posv a i
  | .strainC g i j => ρ.strainv g i j
  | .add a b => evalQ ρ a + evalQ ρ b
  | .mul a b => evalQ ρ a * evalQ ρ b
  | .neg a => -(evalQ ρ a)

/-- A real-valued valuation of the autograd leaves. -/
structure PtR where
  posv : ℕ → Fin 3 → ℝ
  strainv : ℕ → Fin 3 → Fin 3 → ℝ

/-- Real evaluation of a graph scalar. -/
noncomputable def evalR (σ : PtR) : Expr → ℝ
  | .const c => (c : ℝ)
  | .posC a i => σ.posv a i
  | .strainC g i j => σ.strainv g i j
  | .add a b => evalR σ a + evalR σ b
  | .mul a b => evalR σ a * evalR σ b
  | .neg a => -(evalR σ a)

/-- Cast a rational valuation to a real one. -/
noncomputable def Pt.toR (ρ : Pt) : PtR :=
  { posv := fun a i => (ρ.posv a i : ℝ)
    strainv := fun g i j => (ρ.strainv g i j : ℝ) }

/-- Whether the positions leaf occurs in the autograd graph of a scalar. -/
def usesPos : Expr → Bool
  | .const _ => false
  | .posC _ _ => true
  | .strainC _ _ _ => false
  | .add a b => usesPos a || usesPos b
  | .mul a b => usesPos a || usesPos b
  | .neg a => usesPos a

/-- Whether the strain leaf occurs in the autograd graph of a scalar. -/
def usesStrain : Expr → Bool
  | .const _ => false
  | .posC _ _ => false
  | .strainC _ _ _ => true
  | .add a b => usesStrain a || usesStrain b
  | .mul a b => usesStrain a || usesStrain b
  | .neg a => usesStrain a

/-- Reverse-mode partial derivative of a graph scalar with respect to the
position component `(a, i)`, evaluated at the valuation `ρ`. -/
def dPosQ (a : ℕ) (i : Fin 3) (ρ : Pt) : Expr → ℚ
  | .const _ => 0
  | .posC b j => if b = a ∧ j = i then 1 else 0
  | .strainC _ _ _ => 0
  | .add x y => dPosQ a i ρ x + dPosQ a i ρ y
  | .mul x y => dPosQ a i ρ x * evalQ ρ y + evalQ ρ x * dPosQ a i ρ y
  | .neg x => -(dPosQ a i ρ x)

/-- Reverse-mode partial derivative of a graph scalar with respect to the
strain component `(g, i, j)`, evaluated at the valuation `ρ`. -/
def dStrainQ (g : ℕ) (i j : Fin 3) (ρ : Pt) : Expr → ℚ
  | .const _ => 0
  | .posC _ _ => 0
  | .strainC h s t => if h = g ∧ s = i ∧ t = j then 1 else 0
  | .add x y => dStrainQ g i j ρ x + dStrainQ g i j ρ y
  | .mul x y => dStrainQ g i j ρ x * evalQ ρ y + evalQ ρ x * dStrainQ g i j ρ y
  | .neg x => -(dStrainQ g i j ρ x)

/-! ## The batch dictionary

`Dict[str, torch.Tensor]`: an association list from keys to tensors.  Each
tensor is its leading size plus a total entry function. -/

inductive Val : Type where
  | scal : ℕ → (ℕ → Expr) → Val
  | vec3 : ℕ → (ℕ → Fin 3 → Expr) → Val
  | mat3 : ℕ → (ℕ → Fin 3 → Fin 3 → Expr) → Val
  | ints : ℕ → (ℕ → ℕ) → Val
  | eidx : ℕ → (ℕ → ℕ) → (ℕ → ℕ) → Val
  | lens : ℕ → (ℕ → Fin 3 → Expr) → Val

/-- `Val.scal n e`: a 1-D floating tensor of `n` entries (e.g. the
per-structure total energy).
`Val.vec3 n f`: an `(n, 3)` tensor (positions, edge vectors, offsets, forces).
`Val.mat3 n f`: an `(n, 3, 3)` tensor (cells, strain, virial).
`Val.ints n f`: a 1-D integer tensor (`batch`, `ptr`).
`Val.eidx nE c n`: the `(2, nE)` tensor `edge_index`, rows `CENTER_IDX = 0`
and `NEIGHBOR_IDX = 1`.
`Val.lens nE v`: the 1-D tensor `torch.linalg.norm(vectors, dim=-1)` of the
`(nE, 3)` vector tensor `v`; entry `e` denotes the Euclidean norm of row
`e` of `v` (kept symbolic because square roots leave `ℚ`). -/
abbrev Dict : Type := List (String × Val)

/-- Python `d[k]` lookup (first binding wins; `dinsert` keeps keys unique). -/
def getV (d : Dict) (k : String) : Option Val :=
  match d with
  | [] => none
  | (k', v) :: rest => if k' = k then some v else getV rest k

/-- Python `k in d`. -/
def hasKey (d : Dict) (k : String) : Bool :=
  match d with
  | [] => false
  | (k', _) :: rest => k' = k || hasKey rest k

/-- Python `d[k] = v` / one-key `d.update`: overwrite the binding if the key
is present, else append it. -/
def dinsert (d : Dict) (k : String) (v : Val) : Dict :=
  match d with
  | [] => [(k, v)]
  | (k', v') :: rest => if k' = k then (k, v) :: rest else (k', v') :: dinsert rest k v

/-! Typed lookups: Python `data[k]` raises `KeyError` when the key is
missing; downstream tensor ops fail when the stored tensor has the wrong
kind.  Both surface as `Except.error`. -/

def expectScal (d : Dict) (k : String) : Except String (ℕ × (ℕ → Expr)) :=
  match getV d k with
  | some (.scal n f) => .ok (n, f)
  | some _ => .error (k ++ ": unexpected tensor kind")
  | none => .error ("KeyError: " ++ k)

def expectVec3 (d : Dict) (k : String) : Except String (ℕ × (ℕ → Fin 3 → Expr)) :=
  match getV d k with
  | some (.vec3 n f) => .ok (n, f)
  | some _ => .error (k ++ ": unexpected tensor kind")
  | none => .error ("KeyError: " ++ k)

def expectMat3 (d : Dict) (k : String) : Except String (ℕ × (ℕ → Fin 3 → Fin 3 → Expr)) :=
  match getV d k with
  | some (.mat3 n f) => .ok (n, f)
  | some _ => .error (k ++ ": unexpected tensor kind")
  | none => .error ("KeyError: " ++ k)

def expectInts (d : Dict) (k : String) : Except String (ℕ × (ℕ → ℕ)) :=
  match getV d k with
  | some (.ints n f) => .ok (n, f)
  | some _ => .error (k ++ ": unexpected tensor kind")
  | none => .error ("KeyError: " ++ k)

def expectEidx (d : Dict) (k : String) : Except String (ℕ × (ℕ → ℕ) × (ℕ → ℕ)) :=
  match getV d k with
  | some (.eidx n c nb) => .ok (n, c, nb)
  | some _ => .error (k ++ ": unexpected tensor kind")
  | none => .error ("KeyError: " ++ k)

/-- Python `data[k]` without a kind expectation (the pass-through of extra
properties in `compute_properties`). -/
def expectAny (d : Dict) (k : String) : Except String Val :=
  match getV d k with
  | some v => .ok v
  | none => .error ("KeyError: " ++ k)

/-! ## compute_edge_data (src/xequinet/nn/basic.py lines 60-140) -/

/-- Lines 101: `symm_strain = 0.5 * (strain + strain.transpose(1, 2))`. -/
def symmStrain (strain : ℕ → Fin 3 → Fin 3 → Expr) : ℕ → Fin 3 → Fin 3 → Expr :=
  fun g i j => Expr.const (1 / 2) * (strain g i j + strain g j i)

/-- Lines 103-104:
`expanded_strain = torch.index_select(symm_strain, 0, batch)` and
`pos = pos + torch.bmm(pos.unsqueeze(1), expanded_strain).squeeze(1)`:
per atom `a`, the row-vector/matrix product adds
`∑ i, pos a i * expanded a i j` to coordinate `j`. -/
def strainedPos (strain : ℕ → Fin 3 → Fin 3 → Expr) (batch : ℕ → ℕ)
    (pos : ℕ → Fin 3 → Expr) : ℕ → Fin 3 → Expr :=
  let expanded := fun a => symmStrain strain (batch a)
  fun a j => pos a j + sum3 (fun i => pos a i * expanded a i j)

/-- Line 107: `cell = cell + torch.bmm(cell, symm_strain)`: per structure
`g`, the batched matrix product adds `∑ t, cell g i t * symm g t j`. -/
def strainedCell (strain cell : ℕ → Fin 3 → Fin 3 → Expr) :
    ℕ → Fin 3 → Fin 3 → Expr :=
  fun g i j => cell g i j + sum3 (fun t => cell g i t * symmStrain strain g t j)

/-- `data[keys.BATCH].max() == 0` for a (nonnegative) integer batch tensor:
every entry is zero. -/
def batchMaxZero (n : ℕ) (f : ℕ → ℕ) : Bool :=
  (List.range n).all (fun k => f k == 0)

/-- `compute_edge_data` (basic.py lines 60-140).  Translation notes:
* lines 69-79: a missing `batch` key inserts an all-zero `batch` and the
  two-element `ptr` `[0, n_atoms]` and sets `single_graph`; a present
  all-zero `batch` also sets `single_graph`;
* line 82: `n_graphs = data[keys.BATCH_PTR].numel() - 1`;
* lines 84-88: `cell` defaults to an empty `(0, 3, 3)` tensor;
* lines 90-91: `pos.requires_grad_()` marks the positions leaf; position
  entries are already symbolic in this model, so there is no value effect;
* lines 93-100: `strain` is a fresh zero `(n_graphs, 3, 3)` tensor; only
  when `compute_virial` is it marked `requires_grad_`, which this model
  renders as the entries being the strain leaf components `Expr.strainC`
  (numerically zero: the pipeline valuation assigns zero to them) instead
  of literal zero constants;
* lines 101-107: the strain deformation (`strainedPos` / `strainedCell`);
* lines 109-116: `vectors = index_select(pos, 0, center) - index_select(pos, 0, neighbor)`;
* lines 119-128: periodic shifts, single-graph (`cell.squeeze(0)`) or
  per-edge gathered cells (`batch[neighbor]`);
* lines 130-139: `dist = torch.linalg.norm(vectors, dim=-1)` and the
  `data.update` with `edge_length`, `edge_vector`, `strain`. -/
def compute_edge_data (data : Dict)
    (compute_forces : Bool := true) (compute_virial : Bool := false) :
    Except String Dict := do
  let (nAtoms, _pos0) ← expectVec3 data keys.POSITIONS
  let (nEdges, centerIdx, neighborIdx) ← expectEidx data keys.EDGE_INDEX
  let hadBatch := hasKey data keys.BATCH
  let data :=
    if hadBatch then data
    else
      dinsert (dinsert data keys.BATCH (.ints nAtoms (fun _ => 0)))
        keys.BATCH_PTR (.ints 2 (fun k => if k = 0 then 0 else nAtoms))
  let (nBatch, batch) ← expectInts data keys.BATCH
  let singleGraph := if hadBatch then batchMaxZero nBatch batch else true
  let (nPtr, _ptr) ← expectInts data keys.BATCH_PTR
  let nGraphs := nPtr - 1
  let hasCell := hasKey data keys.CELL
  let (_nCell, cell) ←
    if hasCell then expectMat3 data keys.CELL
    else pure (0, fun _ _ _ => Expr.const 0)
  let strain : ℕ → Fin 3 → Fin 3 → Expr :=
    if compute_virial then fun g i j => Expr.strainC g i j
    else fun _ _ _ => Expr.const 0
  let pos : ℕ → Fin 3 → Expr :=
    if compute_virial then strainedPos strain batch _pos0 else _pos0
  let cell : ℕ → Fin 3 → Fin 3 → Expr :=
    if compute_virial && hasCell then strainedCell strain cell else cell
  let vectors : ℕ → Fin 3 → Expr := fun e j =>
    pos (centerIdx e) j - pos (neighborIdx e) j
  let vectors ←
    if hasCell then do
      let (_nOff, cellOffsets) ← expectVec3 data keys.CELL_OFFSETS
      pure (if singleGraph then
        fun e j => vectors e j - sum3 (fun i => cellOffsets e i * cell 0 i j)
      else
        fun e j =>
          vectors e j - sum3 (fun i => cellOffsets e i * cell (batch (neighborIdx e)) i j))
    else pure vectors
  pure (dinsert
    (dinsert
      (dinsert data keys.EDGE_LENGTH (.lens nEdges vectors))
      keys.EDGE_VECTOR (.vec3 nEdges vectors))
    keys.STRAIN (.mat3 nGraphs strain))

/-! ## The autograd engine (torch.autograd.grad)

The source calls `torch.autograd.grad(outputs=[energy], inputs=…,
grad_outputs=[torch.ones_like(energy)], retain_graph=training,
create_graph=training)` and never passes `allow_unused`, which therefore
keeps its documented default `False`: an input tensor that was not used in
the graph of the outputs raises a `RuntimeError` instead of yielding a
`None` gradient.  (Only with `allow_unused=True` can entries of the result
be `None`.)  The result type keeps the `Optional[Tensor]` entries of the
TorchScript signature. -/

inductive GradLeaf : Type where
  | pos : GradLeaf
  | strain : GradLeaf

inductive GradVal : Type where
  | posG : (ℕ → Fin 3 → ℚ) → GradVal
  | strainG : (ℕ → Fin 3 → Fin 3 → ℚ) → GradVal

/-- Whether an input leaf was used in the graph of the output tensor. -/
def usesLeaf (nS : ℕ) (energy : ℕ → Expr) : GradLeaf → Bool
  | .pos => (List.range nS).any (fun k => usesPos (energy k))
  | .strain => (List.range nS).any (fun k => usesStrain (energy k))

/-- The vector-Jacobian product for the positions leaf: gradient of
`∑ k, grad_outputs k * energy k` with respect to position component
`(a, i)`, at the leaf valuation `ρ`. -/
def vjpPos (nS : ℕ) (energy : ℕ → Expr) (grad_outputs : ℕ → ℚ) (ρ : Pt) :
    ℕ → Fin 3 → ℚ :=
  fun a i => ∑ k ∈ Finset.range nS, grad_outputs k * dPosQ a i ρ (energy k)

/-- The vector-Jacobian product for the strain leaf. -/
def vjpStrain (nS : ℕ) (energy : ℕ → Expr) (grad_outputs : ℕ → ℚ) (ρ : Pt) :
    ℕ → Fin 3 → Fin 3 → ℚ :=
  fun g i j => ∑ k ∈ Finset.range nS, grad_outputs k * dStrainQ g i j ρ (energy k)

/-- `torch.autograd.grad` on a single output tensor (the per-structure
energy vector, `nS` entries) with `allow_unused` at its default `False`.
`retain_graph` / `create_graph` govern graph lifetime and second-order
taping, which have no value-level content here. -/
def torch_autograd_grad (nS : ℕ) (energy : ℕ → Expr) (inputs : List GradLeaf)
    (grad_outputs : ℕ → ℚ) (retain_graph create_graph : Bool) (ρ : Pt) :
    Except String (List (Option GradVal)) :=
  if inputs.all (fun l => usesLeaf nS energy l) then
    .ok (inputs.map (fun l =>
      some (match l with
        | .pos => .posG (vjpPos nS energy grad_outputs ρ)
        | .strain => .strainG (vjpStrain nS energy grad_outputs ρ))))
  else
    .error "RuntimeError: One of the differentiated Tensors appears to not have been used in the graph. Set allow_unused=True if this is the desired behavior."

/-! ## Property derivation (basic.py lines 143-238) -/

/-- `compute_forces_only` (lines 143-159).  `energy` is the per-structure
energy tensor (`nS` entries); `nAtoms` is the leading size of the `pos`
argument (the positions leaf), used by `torch.zeros_like(pos)`; `ρ` holds
the current leaf values.  `grad_outputs = [torch.ones_like(energy)]`; the
`pos_grad is None` fallback to zeros is kept from the source (it is
reachable only under `allow_unused=True`). -/
def compute_forces_only (nS : ℕ) (energy : ℕ → Expr) (nAtoms : ℕ)
    (training : Bool) (ρ : Pt) : Except String (ℕ → Fin 3 → ℚ) := do
  let grad_outputs : ℕ → ℚ := fun _ => 1
  let res ← torch_autograd_grad nS energy [.pos] grad_outputs training training ρ
  match res.headD none with
  | none => pure (fun _ _ => 0)
  | some (.posG pos_grad) => pure (fun a i => (-1 : ℚ) * pos_grad a i)
  | some (.strainG _) => .error "unexpected gradient shape"

/-- `compute_virial_only` (lines 162-178); `nGraphs` is the leading size of
the `strain` argument, used by `torch.zeros_like(strain)`. -/
def compute_virial_only (nS : ℕ) (energy : ℕ → Expr) (nGraphs : ℕ)
    (training : Bool) (ρ : Pt) : Except String (ℕ → Fin 3 → Fin 3 → ℚ) := do
  let grad_outputs : ℕ → ℚ := fun _ => 1
  let res ← torch_autograd_grad nS energy [.strain] grad_outputs training training ρ
  match res.headD none with
  | none => pure (fun _ _ _ => 0)
  | some (.strainG strain_grad) => pure (fun g i j => (-1 : ℚ) * strain_grad g i j)
  | some (.posG _) => .error "unexpected gradient shape"

/-- `compute_forces_and_virial` (lines 181-199): one `torch.autograd.grad`
call over both inputs `[pos, strain]`, destructured as
`pos_grad, strain_grad = …`. -/
def compute_forces_and_virial (nS : ℕ) (energy : ℕ → Expr)
    (nAtoms nGraphs : ℕ) (training : Bool) (ρ : Pt) :
    Except String ((ℕ → Fin 3 → ℚ) × (ℕ → Fin 3 → Fin 3 → ℚ)) := do
  let grad_outputs : ℕ → ℚ := fun _ => 1
  let res ← torch_autograd_grad nS energy [.pos, .strain] grad_outputs training training ρ
  match res with
  | [pg, sg] =>
    let pos_grad : ℕ → Fin 3 → ℚ :=
      match pg with
      | none => fun _ _ => 0
      | some (.posG g) => g
      | some (.strainG _) => fun _ _ => 0
    let strain_grad : ℕ → Fin 3 → Fin 3 → ℚ :=
      match sg with
      | none => fun _ _ _ => 0
      | some (.strainG g) => g
      | some (.posG _) => fun _ _ _ => 0
    pure (fun a i => (-1 : ℚ) * pos_grad a i, fun g i j => (-1 : ℚ) * strain_grad g i j)
  | _ => .error "unexpected number of gradients"

/-- The `results` construction of `compute_properties` (lines 210-233): the
`if compute_forces and compute_virial / elif / elif` chain deriving forces
and virial.  Gradient tensors are stored back into the result dictionary as
constant tensors (with `create_graph=training` they would carry their own
graph; no modelled claim inspects second-order structure). -/
def compute_properties_results (data : Dict)
    (compute_forces compute_virial training : Bool) (ρ : Pt) :
    Except String Dict := do
  let results : Dict := []
  if compute_forces && compute_virial then do
      let (nS, energy) ← expectScal data keys.TOTAL_ENERGY
      let (nAtoms, _pos) ← expectVec3 data keys.POSITIONS
      let (nGraphs, _strain) ← expectMat3 data keys.STRAIN
      let (forces, virial) ← compute_forces_and_virial nS energy nAtoms nGraphs training ρ
      pure (dinsert
        (dinsert results keys.FORCES (.vec3 nAtoms (fun a i => Expr.const (forces a i))))
        keys.VIRIAL (.mat3 nGraphs (fun g i j => Expr.const (virial g i j))))
    else if compute_forces then do
      let (nS, energy) ← expectScal data keys.TOTAL_ENERGY
      let (nAtoms, _pos) ← expectVec3 data keys.POSITIONS
      let forces ← compute_forces_only nS energy nAtoms training ρ
      pure (dinsert results keys.FORCES (.vec3 nAtoms (fun a i => Expr.const (forces a i))))
    else if compute_virial then do
      let (nS, energy) ← expectScal data keys.TOTAL_ENERGY
      let (nGraphs, _strain) ← expectMat3 data keys.STRAIN
      let virial ← compute_virial_only nS energy nGraphs training ρ
      pure (dinsert results keys.VIRIAL (.mat3 nGraphs (fun g i j => Expr.const (virial g i j))))
    else
      pure results

/-- The `extra_properties` pass-through at the end of `compute_properties`
(lines 235-236): `results.update({k: data[k] for k in extra_properties})`. -/
def update_extras (data : Dict) (results : Dict) (ks : List String) :
    Except String Dict :=
  ks.foldlM (fun acc k => do
    let v ← expectAny data k
    pure (dinsert acc k v)) results

/-- `compute_properties` (lines 202-238): the gradient-derived results of
the `if`-chain, then the extra properties copied verbatim from `data` (a
missing extra key is a `KeyError`; iteration order, later entries
overwriting earlier ones, as in `dict.update`). -/
def compute_properties (data : Dict)
    (compute_forces : Bool := true) (compute_virial : Bool := false)
    (training : Bool := true) (extra_properties : Option (List String) := none)
    (ρ : Pt := ⟨fun _ _ => 0, fun _ _ _ => 0⟩) : Except String Dict := do
  let results ← compute_properties_results data compute_forces compute_virial training ρ
  match extra_properties with
  | none => pure results
  | some ks => update_extras data results ks

/-! ## The model shell (src/xequinet/nn/model.py lines 12-38) -/

/-- `BaseModel`: the learned stages (`module_list`) are external
collaborators, each consuming and returning a batch dictionary; the model
declares its extra properties; `training` is the `nn.Module` mode. -/
structure BaseModel : Type where
  module_list : List (Dict → Dict)
  extra_properties : List String
  training : Bool

/-- `BaseModel.forward` (model.py lines 18-38): edge preparation, then the
learned stages in order, then property derivation. -/
def BaseModel.forward (m : BaseModel) (data : Dict)
    (compute_forces : Bool := true) (compute_virial : Bool := false)
    (ρ : Pt := ⟨fun _ _ => 0, fun _ _ _ => 0⟩) : Except String Dict := do
  let data ← compute_edge_data data compute_forces compute_virial
  let data := m.module_list.foldl (fun d f => f d) data
  compute_properties data compute_forces compute_virial m.training
    (some m.extra_properties) ρ

/-! ## Auxiliary definitions for the statements -/

/-- A well-formed Structure Batch dictionary, as the ingestion/collation
collaborator produces it (spec section 3): positions and edge index always;
`cell` together with `cell_offsets` when periodic; `batch` together with
`ptr` when collated.  `nStruct` is the number of structures of a collated
batch (`ptr` has `nStruct + 1` entries). -/
def mkData (nAtoms nEdges nStruct : ℕ) (pos : ℕ → Fin 3 → Expr)
    (center neighbor : ℕ → ℕ)
    (cell : Option (ℕ → Fin 3 → Fin 3 → Expr)) (offsets : ℕ → Fin 3 → Expr)
    (batchf : Option ((ℕ → ℕ) × (ℕ → ℕ))) : Dict :=
  [(keys.POSITIONS, .vec3 nAtoms pos), (keys.EDGE_INDEX, .eidx nEdges center neighbor)]
    ++ (match cell with
        | some C => [(keys.CELL, .mat3 nStruct C), (keys.CELL_OFFSETS, .vec3 nEdges offsets)]
        | none => [])
    ++ (match batchf with
        | some (bf, pf) => [(keys.BATCH, .ints nAtoms bf), (keys.BATCH_PTR, .ints (nStruct + 1) pf)]
        | none => [])

/-- The leading dimension (number of entries along the batch/edge axis) of
a stored tensor. -/
def valSize : Val → ℕ
  | .scal n _ => n
  | .vec3 n _ => n
  | .mat3 n _ => n
  | .ints n _ => n
  | .eidx n _ _ => n
  | .lens n _ => n

/-- Numeric value of entry `e` of a `Val.lens` tensor: what
`torch.linalg.norm(vectors, dim=-1)` stores there, the 2-norm of row `e`
of the vector tensor along the last axis of extent 3. -/
noncomputable def linalgNorm (σ : PtR) (v : ℕ → Fin 3 → Expr) (e : ℕ) : ℝ :=
  Real.sqrt (evalR σ (v e 0) ^ 2 + evalR σ (v e 1) ^ 2 + evalR σ (v e 2) ^ 2)

/-- The `(nE, 3)` entry function of the `edge_vector` tensor of a result
dictionary (junk when absent). -/
def edgeVec (d : Dict) : ℕ → Fin 3 → Expr :=
  match getV d keys.EDGE_VECTOR with
  | some (.vec3 _ f) => f
  | _ => fun _ _ => Expr.const 0

/-- The vector tensor whose row norms the `edge_length` tensor of a result
dictionary holds (junk when absent). -/
def edgeLenVec (d : Dict) : ℕ → Fin 3 → Expr :=
  match getV d keys.EDGE_LENGTH with
  | some (.lens _ f) => f
  | _ => fun _ _ => Expr.const 0

/-- The all-zero leaf valuation: freshly created strain is zero, and a
batch of constant-entry positions ignores the position leaf values. -/
def ptZero : Pt := ⟨fun _ _ => 0, fun _ _ _ => 0⟩

/-- Replace the value of position component `(a, i)` in a real leaf
valuation: the curve along which the positional partial derivative is
taken. -/
def updPos (σ : PtR) (a : ℕ) (i : Fin 3) (t : ℝ) : PtR :=
  { σ with posv := fun b j => if b = a ∧ j = i then t else σ.posv b j }

/-- Real-valued structural partial derivative with respect to position
component `(a, i)` (mirror of `dPosQ` over `ℝ`). -/
noncomputable def dPosR (a : ℕ) (i : Fin 3) (σ : PtR) : Expr → ℝ
  | .const _ => 0
  | .posC b j => if b = a ∧ j = i then 1 else 0
  | .strainC _ _ _ => 0
  | .add x y => dPosR a i σ x + dPosR a i σ y
  | .mul x y => dPosR a i σ x * evalR σ y + evalR σ x * dPosR a i σ y
  | .neg x => -(dPosR a i σ x)

/-- The total energy of the batch: the per-structure energy vector summed
with unit weights (`grad_outputs = torch.ones_like(energy)` means the
backward pass differentiates exactly this sum). -/
noncomputable def sumEnergyR (nS : ℕ) (energy : ℕ → Expr) (σ : PtR) : ℝ :=
  ∑ k ∈ Finset.range nS, evalR σ (energy k)

/-- Modelled from the spec: the output modules (`resolve_output`, file
`src/xequinet/nn/output.py`, absent from `src/`) are the learned stages
that write the per-structure total energy into the batch under
`keys.TOTAL_ENERGY` and whose declared `extra_properties` the model
collects; the spec requires the single entry point to return "a mapping
containing at least `energy` … plus any declared extra properties"
(section 6), extra properties being "already present in the batch …
copied verbatim" (section 4.3).  So after the stages have run: `energy`
is declared among the model's extra properties, the batch holds it as a
per-structure scalar tensor, and every declared extra property is present
in the batch. -/
def OutputModuleContract (m : BaseModel) (d : Dict) (nS : ℕ) (energy : ℕ → Expr) : Prop :=
  keys.TOTAL_ENERGY ∈ m.extra_properties ∧
  getV d keys.TOTAL_ENERGY = some (.scal nS energy) ∧
  ∀ k ∈ m.extra_properties, hasKey d k = true

/-! ## General lemmas -/

theorem evalR_toR (ρ : Pt) (e : Expr) : evalR ρ.toR e = (evalQ ρ e : ℝ) := by
  induction e with
  | const c => rfl
  | posC a i => rfl
  | strainC g i j => rfl
  | add a b ha hb => simp [evalR, evalQ, ha, hb]
  | mul a b ha hb => simp [evalR, evalQ, ha, hb]
  | neg a ha => simp [evalR, evalQ, ha]

theorem getV_dinsert_same (d : Dict) (k : String) (v : Val) :
    getV (dinsert d k v) k = some v := by
  induction d with
  | nil => simp [dinsert, getV]
  | cons p rest ih =>
    by_cases h : p.1 = k <;> simp [dinsert, getV, h, ih]

theorem getV_dinsert_other (d : Dict) (k k' : String) (v : Val) (h : k ≠ k') :
    getV (dinsert d k v) k' = getV d k' := by
  induction d with
  | nil => simp [dinsert, getV, h]
  | cons p rest ih =>
    by_cases hp : p.1 = k
    · simp [dinsert, getV, hp, h]
    · by_cases hp' : p.1 = k' <;>
        simp [dinsert, getV, hp, hp', ih, Ne.symm h]

theorem hasKey_dinsert (d : Dict) (k k' : String) (v : Val) :
    hasKey (dinsert d k v) k' = (k = k' || hasKey d k') := by
  induction d with
  | nil => simp [dinsert, hasKey]
  | cons p rest ih =>
    by_cases hp : p.1 = k
    · subst hp
      by_cases hk : p.1 = k' <;> simp [dinsert, hasKey, hk]
    · by_cases hk : p.1 = k'
      · have hkk : ¬k = k' := fun hh => hp (hk.trans hh.symm)
        have hkk' : ¬k' = k := fun hh => hkk hh.symm
        simp [dinsert, hasKey, hp, hk, hkk, hkk']
      · simp [dinsert, hasKey, hp, hk, ih]

theorem hasKey_iff_getV (d : Dict) (k : String) :
    hasKey d k = true ↔ (getV d k).isSome := by
  induction d with
  | nil => simp [hasKey, getV]
  | cons p rest ih =>
    by_cases hp : p.1 = k <;> simp [hasKey, getV, hp, ih]

@[simp]
theorem evalQ_const (ρ : Pt) (c : ℚ) : evalQ ρ (Expr.const c) = c := rfl

@[simp]
theorem evalQ_add (ρ : Pt) (a b : Expr) : evalQ ρ (a + b) = evalQ ρ a + evalQ ρ b := rfl

@[simp]
theorem evalQ_mul (ρ : Pt) (a b : Expr) : evalQ ρ (a * b) = evalQ ρ a * evalQ ρ b := rfl

@[simp]
theorem evalQ_neg (ρ : Pt) (a : Expr) : evalQ ρ (-a) = -(evalQ ρ a) := rfl

@[simp]
theorem evalQ_sub (ρ : Pt) (a b : Expr) : evalQ ρ (a - b) = evalQ ρ a - evalQ ρ b := by
  show evalQ ρ (a + -b) = _
  simp [evalQ]
  ring

theorem evalQ_sum3 (ρ : Pt) (f : Fin 3 → Expr) :
    evalQ ρ (sum3 f) = ∑ i, evalQ ρ (f i) := by
  simp [sum3, Fin.sum_univ_three]

/-- `torch.linalg.norm(·, dim=-1)` computes exactly the Euclidean norm of
each row. -/
theorem linalgNorm_eq_norm (σ : PtR) (v : ℕ → Fin 3 → Expr) (e : ℕ) :
    linalgNorm σ v e =
      ‖(show EuclideanSpace ℝ (Fin 3) from fun i => evalR σ (v e i))‖ := by
  rw [EuclideanSpace.norm_eq]
  simp [linalgNorm, Fin.sum_univ_three, sq_abs]

@[simp]
theorem evalQ_posC (ρ : Pt) (a : ℕ) (i : Fin 3) : evalQ ρ (Expr.posC a i) = ρ.posv a i := rfl

@[simp]
theorem evalQ_strainC (ρ : Pt) (g : ℕ) (i j : Fin 3) :
    evalQ ρ (Expr.strainC g i j) = ρ.strainv g i j := rfl

theorem evalQ_strainedPos_zero (ρ : Pt) (hρ : ∀ g i j, ρ.strainv g i j = 0)
    (batch : ℕ → ℕ) (pos : ℕ → Fin 3 → Expr) (a : ℕ) (j : Fin 3) :
    evalQ ρ (strainedPos (fun g i j => Expr.strainC g i j) batch pos a j) =
      evalQ ρ (pos a j) := by
  simp [strainedPos, symmStrain, sum3, hρ]

theorem evalQ_strainedCell_zero (ρ : Pt) (hρ : ∀ g i j, ρ.strainv g i j = 0)
    (cell : ℕ → Fin 3 → Fin 3 → Expr) (g : ℕ) (i j : Fin 3) :
    evalQ ρ (strainedCell (fun g i j => Expr.strainC g i j) cell g i j) =
      evalQ ρ (cell g i j) := by
  simp [strainedCell, symmStrain, sum3, hρ]

theorem linalgNorm_congr (ρ : Pt) (v w : ℕ → Fin 3 → Expr) (e : ℕ)
    (h : ∀ i, evalQ ρ (v e i) = evalQ ρ (w e i)) :
    linalgNorm ρ.toR v e = linalgNorm ρ.toR w e := by
  simp [linalgNorm, evalR_toR, h]

theorem updPos_self (σ : PtR) (a : ℕ) (i : Fin 3) : updPos σ a i (σ.posv a i) = σ := by
  cases σ with
  | mk p s =>
    simp only [updPos]
    congr 1
    funext b j
    split
    next h => rw [h.1, h.2]
    next => rfl

theorem evalR_updPos_hasDerivAt (σ : PtR) (a : ℕ) (i : Fin 3) (e : Expr) :
    HasDerivAt (fun t => evalR (updPos σ a i t) e) (dPosR a i σ e) (σ.posv a i) := by
  induction e with
  | const c => simpa [evalR, dPosR] using hasDerivAt_const (σ.posv a i) (c : ℝ)
  | posC b j =>
    by_cases h : b = a ∧ j = i
    · simp only [evalR, updPos, dPosR, if_pos h]
      exact hasDerivAt_id _
    · simp only [evalR, updPos, dPosR, if_neg h]
      exact hasDerivAt_const _ _
  | strainC g i' j' => simpa [evalR, dPosR, updPos] using hasDerivAt_const (σ.posv a i) (σ.strainv g i' j')
  | add x y hx hy => simpa [evalR, dPosR] using hx.add hy
  | mul x y hx hy =>
    have h := hx.mul hy
    rw [updPos_self] at h
    simpa [evalR, dPosR] using h
  | neg x hx => simpa [evalR, dPosR] using hx.neg

theorem dPosR_toR (ρ : Pt) (a : ℕ) (i : Fin 3) (e : Expr) :
    dPosR a i ρ.toR e = (dPosQ a i ρ e : ℝ) := by
  induction e with
  | const c => simp [dPosR, dPosQ]
  | posC b j => by_cases h : b = a ∧ j = i <;> simp [dPosR, dPosQ, h]
  | strainC g i' j' => simp [dPosR, dPosQ]
  | add x y hx hy => simp [dPosR, dPosQ, hx, hy]
  | mul x y hx hy => simp [dPosR, dPosQ, hx, hy, evalR_toR]
  | neg x hx => simp [dPosR, dPosQ, hx]

theorem update_extras_spec (data : Dict) (ks : List String) (acc : Dict)
    (h : ∀ k ∈ ks, hasKey data k = true) :
    ∃ r, update_extras data acc ks = .ok r ∧
      (∀ k, hasKey r k = true ↔ (hasKey acc k = true ∨ k ∈ ks)) ∧
      (∀ k ∈ ks, getV r k = getV data k) ∧
      (∀ k, k ∉ ks → getV r k = getV acc k) := by
  induction ks generalizing acc with
  | nil => exact ⟨acc, rfl, by simp, by simp, fun _ _ => rfl⟩
  | cons k0 rest ih =>
    have hk0 : hasKey data k0 = true := h k0 (by simp)
    obtain ⟨v0, hv0⟩ : ∃ v, getV data k0 = some v :=
      Option.isSome_iff_exists.mp ((hasKey_iff_getV data k0).mp hk0)
    have hrest : ∀ k ∈ rest, hasKey data k = true := fun k hk => h k (by simp [hk])
    obtain ⟨r, hr, hkeys, hin, hout⟩ := ih (dinsert acc k0 v0) hrest
    refine ⟨r, ?_, ?_, ?_, ?_⟩
    · simpa [update_extras, List.foldlM_cons, expectAny, hv0, Bind.bind, Except.bind,
        pure, Except.pure] using hr
    · intro k
      rw [hkeys k, hasKey_dinsert]
      by_cases hk : k0 = k <;> simp [hk] <;> tauto
    · intro k hk
      rcases List.mem_cons.mp hk with hk | hk
      · subst hk
        by_cases hmem : k ∈ rest
        · exact hin k hmem
        · rw [hout k hmem, getV_dinsert_same, hv0]
      · exact hin k hk
    · intro k hk
      have hk0' : k ≠ k0 := fun hh => hk (by simp [hh])
      have hkr : k ∉ rest := fun hh => hk (by simp [hh])
      rw [hout k hkr, getV_dinsert_other _ _ _ _ (Ne.symm hk0')]

set_option maxRecDepth 4000 in
theorem compute_properties_results_spec (data : Dict) (cf cv training : Bool) (ρ : Pt)
    (nS : ℕ) (energy : ℕ → Expr) (nA : ℕ) (posf : ℕ → Fin 3 → Expr)
    (nG : ℕ) (strainf : ℕ → Fin 3 → Fin 3 → Expr)
    (hen : getV data keys.TOTAL_ENERGY = some (.scal nS energy))
    (hpos : getV data keys.POSITIONS = some (.vec3 nA posf))
    (hstr : getV data keys.STRAIN = some (.mat3 nG strainf))
    (hfp : cf = true → usesLeaf nS energy .pos = true)
    (hfs : cv = true → usesLeaf nS energy .strain = true) :
    ∃ res, compute_properties_results data cf cv training ρ = .ok res ∧
      (∀ k, hasKey res k = true ↔
        ((cf = true ∧ k = keys.FORCES) ∨ (cv = true ∧ k = keys.VIRIAL))) ∧
      (cf = false → cv = false → res = []) := by
  rcases cf
  · rcases cv
    · exact ⟨[], by simp [compute_properties_results, pure, Except.pure],
        by simp [hasKey], fun _ _ => rfl⟩
    · obtain ⟨V, hV⟩ : ∃ V, compute_virial_only nS energy nG training ρ = .ok V := by
        simp [compute_virial_only, torch_autograd_grad, hfs rfl, Bind.bind,
          Except.bind, pure, Except.pure]
      refine ⟨[(keys.VIRIAL, .mat3 nG (fun g i j => Expr.const (V g i j)))], ?_, ?_, by simp⟩
      · simp [compute_properties_results, hen, hpos, hstr, expectScal, expectVec3,
          expectMat3, hV, Bind.bind, Except.bind, pure, Except.pure, dinsert]
      · intro k
        simp [hasKey, eq_comm]
  · rcases cv
    · obtain ⟨F, hF⟩ : ∃ F, compute_forces_only nS energy nA training ρ = .ok F := by
        simp [compute_forces_only, torch_autograd_grad, hfp rfl, Bind.bind,
          Except.bind, pure, Except.pure]
      refine ⟨[(keys.FORCES, .vec3 nA (fun a i => Expr.const (F a i)))], ?_, ?_, by simp⟩
      · simp [compute_properties_results, hen, hpos, hstr, expectScal, expectVec3,
          expectMat3, hF, Bind.bind, Except.bind, pure, Except.pure, dinsert]
      · intro k
        simp [hasKey, eq_comm]
    · obtain ⟨F, V, hFV⟩ : ∃ F V,
          compute_forces_and_virial nS energy nA nG training ρ = .ok (F, V) := by
        simp [compute_forces_and_virial, torch_autograd_grad, hfp rfl, hfs rfl,
          Bind.bind, Except.bind, pure, Except.pure]
      refine ⟨[(keys.FORCES, .vec3 nA (fun a i => Expr.const (F a i))),
               (keys.VIRIAL, .mat3 nG (fun g i j => Expr.const (V g i j)))], ?_, ?_, by simp⟩
      · simp only [compute_properties_results, hen, hpos, hstr, expectScal, expectVec3,
          expectMat3, hFV, Bind.bind, Except.bind, pure, Except.pure, Bool.and_self,
          if_true, cond_true]
        rfl
      · intro k
        simp [hasKey, keys.FORCES, keys.VIRIAL]
        exact or_congr eq_comm eq_comm

theorem compute_properties_spec (data : Dict) (cf cv training : Bool)
    (extra : Option (List String)) (ρ : Pt)
    (nS : ℕ) (energy : ℕ → Expr) (nA : ℕ) (posf : ℕ → Fin 3 → Expr)
    (nG : ℕ) (strainf : ℕ → Fin 3 → Fin 3 → Expr)
    (hen : getV data keys.TOTAL_ENERGY = some (.scal nS energy))
    (hpos : getV data keys.POSITIONS = some (.vec3 nA posf))
    (hstr : getV data keys.STRAIN = some (.mat3 nG strainf))
    (hfp : cf = true → usesLeaf nS energy .pos = true)
    (hfs : cv = true → usesLeaf nS energy .strain = true)
    (hex : ∀ k ∈ extra.getD [], hasKey data k = true) :
    ∃ r, compute_properties data cf cv training extra ρ = .ok r ∧
      (∀ k, hasKey r k = true ↔
        ((cf = true ∧ k = keys.FORCES) ∨ (cv = true ∧ k = keys.VIRIAL) ∨
          k ∈ extra.getD [])) ∧
      (∀ k ∈ extra.getD [], getV r k = getV data k) ∧
      (cf = false → cv = false → extra.getD [] = [] → r = []) := by
  obtain ⟨res, hres, hresKeys, hresNil⟩ :=
    compute_properties_results_spec data cf cv training ρ nS energy nA posf nG strainf
      hen hpos hstr hfp hfs
  rcases extra with _ | ks
  · refine ⟨res, ?_, ?_, by simp, fun h1 h2 _ => hresNil h1 h2⟩
    · simp [compute_properties, hres, Bind.bind, Except.bind, pure, Except.pure]
    · intro k
      rw [hresKeys k]
      simp
  · obtain ⟨r, hr, hkeys, hin, hout⟩ := update_extras_spec data ks res (by simpa using hex)
    refine ⟨r, ?_, ?_, by simpa using hin, ?_⟩
    · simp [compute_properties, hres, hr, Bind.bind, Except.bind, pure, Except.pure]
    · intro k
      rw [hkeys k, hresKeys k]
      tauto
    · intro h1 h2 hks
      simp only [Option.getD] at hks
      subst hks
      have : update_extras data res [] = .ok res := rfl
      rw [this] at hr
      cases hr
      exact hresNil h1 h2

/-! ## Claims -/

/-- C9: for every batch whose `edge_index` is empty (zero edges), edge
preparation does not raise an error and produces empty `edge_length` and
`edge_vector` tensors; this holds both with and without a cell present
(and whether or not the batch carries collation metadata), for any setting
of the flags. -/
theorem zero_edges_safe (n nS : ℕ) (pos : ℕ → Fin 3 → Expr) (c nb : ℕ → ℕ)
    (offs : ℕ → Fin 3 → Expr) (C : ℕ → Fin 3 → Fin 3 → Expr) (bf pf : ℕ → ℕ)
    (cf cv : Bool) :
    (∃ d', compute_edge_data (mkData n 0 nS pos c nb none offs none) cf cv = .ok d' ∧
      (getV d' keys.EDGE_VECTOR).map valSize = some 0 ∧
      (getV d' keys.EDGE_LENGTH).map valSize = some 0) ∧
    (∃ d', compute_edge_data (mkData n 0 nS pos c nb (some C) offs none) cf cv = .ok d' ∧
      (getV d' keys.EDGE_VECTOR).map valSize = some 0 ∧
      (getV d' keys.EDGE_LENGTH).map valSize = some 0) ∧
    (∃ d', compute_edge_data (mkData n 0 nS pos c nb none offs (some (bf, pf))) cf cv = .ok d' ∧
      (getV d' keys.EDGE_VECTOR).map valSize = some 0 ∧
      (getV d' keys.EDGE_LENGTH).map valSize = some 0) ∧
    (∃ d', compute_edge_data (mkData n 0 nS pos c nb (some C) offs (some (bf, pf))) cf cv = .ok d' ∧
      (getV d' keys.EDGE_VECTOR).map valSize = some 0 ∧
      (getV d' keys.EDGE_LENGTH).map valSize = some 0) := by
  refine ⟨⟨_, rfl, ?_, ?_⟩, ⟨_, rfl, ?_, ?_⟩, ⟨_, rfl, ?_, ?_⟩, ⟨_, rfl, ?_, ?_⟩⟩ <;>
    simp [mkData, getV, dinsert, hasKey, valSize, keys.POSITIONS, keys.EDGE_INDEX,
      keys.BATCH, keys.BATCH_PTR, keys.CELL, keys.CELL_OFFSETS, keys.EDGE_LENGTH,
      keys.EDGE_VECTOR, keys.STRAIN]

/-- C3: for every edge `(center, neighbor)` of a batch, the base
displacement is `positions[center] - positions[neighbor]` and `edge_length`
is its Euclidean norm; with a cell and a single-structure batch the shift
`cell_offsets · cell` is subtracted; with a cell and a multi-structure
batch the cell contracted against `cell_offsets` is the cell of structure
`batch[neighbor]`, gathered per edge. -/
theorem edge_vector_and_length_spec
    (n nE nS : ℕ) (pos : ℕ → Fin 3 → Expr) (c nb : ℕ → ℕ)
    (offs : ℕ → Fin 3 → Expr) (C : ℕ → Fin 3 → Fin 3 → Expr) (bf pf : ℕ → ℕ)
    (cf : Bool) (ρ : Pt) (e : ℕ) (he : e < nE) :
    (∃ d', compute_edge_data (mkData n nE nS pos c nb none offs none) cf false = .ok d' ∧
      (getV d' keys.EDGE_VECTOR).map valSize = some nE ∧
      (∀ j, evalQ ρ (edgeVec d' e j) =
        evalQ ρ (pos (c e) j) - evalQ ρ (pos (nb e) j)) ∧
      (getV d' keys.EDGE_LENGTH).map valSize = some nE ∧
      linalgNorm ρ.toR (edgeLenVec d') e =
        ‖(show EuclideanSpace ℝ (Fin 3) from fun i => evalR ρ.toR (edgeVec d' e i))‖) ∧
    (∃ d', compute_edge_data (mkData n nE nS pos c nb (some C) offs none) cf false = .ok d' ∧
      (getV d' keys.EDGE_VECTOR).map valSize = some nE ∧
      (∀ j, evalQ ρ (edgeVec d' e j) =
        evalQ ρ (pos (c e) j) - evalQ ρ (pos (nb e) j)
          - ∑ i, evalQ ρ (offs e i) * evalQ ρ (C 0 i j)) ∧
      linalgNorm ρ.toR (edgeLenVec d') e =
        ‖(show EuclideanSpace ℝ (Fin 3) from fun i => evalR ρ.toR (edgeVec d' e i))‖) ∧
    (batchMaxZero n bf = false →
      ∃ d', compute_edge_data (mkData n nE nS pos c nb (some C) offs (some (bf, pf))) cf false = .ok d' ∧
      (getV d' keys.EDGE_VECTOR).map valSize = some nE ∧
      (∀ j, evalQ ρ (edgeVec d' e j) =
        evalQ ρ (pos (c e) j) - evalQ ρ (pos (nb e) j)
          - ∑ i, evalQ ρ (offs e i) * evalQ ρ (C (bf (nb e)) i j)) ∧
      linalgNorm ρ.toR (edgeLenVec d') e =
        ‖(show EuclideanSpace ℝ (Fin 3) from fun i => evalR ρ.toR (edgeVec d' e i))‖) := by
  refine ⟨⟨_, rfl, ?_, ?_, ?_, ?_⟩, ⟨_, rfl, ?_, ?_, ?_⟩, fun hmz => ⟨_, rfl, ?_, ?_, ?_⟩⟩ <;>
    simp [mkData, getV, dinsert, hasKey, valSize, edgeVec, edgeLenVec, keys.POSITIONS,
      keys.EDGE_INDEX, keys.BATCH, keys.BATCH_PTR, keys.CELL, keys.CELL_OFFSETS,
      keys.EDGE_LENGTH, keys.EDGE_VECTOR, keys.STRAIN, evalQ_sum3, linalgNorm_eq_norm]
  intro j
  simp [hmz, evalQ_sum3]

theorem edge_vector_and_length_spec_witness :
    ∃ d', compute_edge_data
        (mkData 2 1 1 (fun a _ => Expr.const a) (fun _ => 0) (fun _ => 1)
          none (fun _ _ => Expr.const 0) none) true false = .ok d' ∧
      (getV d' keys.EDGE_VECTOR).map valSize = some 1 ∧
      (∀ j, evalQ ptZero (edgeVec d' 0 j) =
        evalQ ptZero (Expr.const 0) - evalQ ptZero (Expr.const 1)) := by
  obtain ⟨⟨d', h1, h2, h3, _⟩, _, _⟩ :=
    edge_vector_and_length_spec 2 1 1 (fun a _ => Expr.const a) (fun _ => 0) (fun _ => 1)
      (fun _ _ => Expr.const 0) (fun _ _ _ => Expr.const 0) (fun _ => 0) (fun _ => 0)
      true ptZero 0 (by decide)
  exact ⟨d', h1, h2, h3⟩

/-- C4: for every batch, running edge preparation with `compute_virial`
disabled leaves the stored positions and cell unmodified and produces the
same edge-vector and edge-length values as running it with `compute_virial`
enabled, evaluated at the zero strain the code initializes: the strain
transform is the identity at strain = 0. -/
theorem strain_identity_at_zero
    (n nE nS : ℕ) (pos : ℕ → Fin 3 → Expr) (c nb : ℕ → ℕ)
    (offs : ℕ → Fin 3 → Expr)
    (cellO : Option (ℕ → Fin 3 → Fin 3 → Expr))
    (batchO : Option ((ℕ → ℕ) × (ℕ → ℕ)))
    (cf cf' : Bool) (ρ : Pt) (hρ : ∀ g i j, ρ.strainv g i j = 0) :
    ∃ d₁ d₂,
      compute_edge_data (mkData n nE nS pos c nb cellO offs batchO) cf false = .ok d₁ ∧
      compute_edge_data (mkData n nE nS pos c nb cellO offs batchO) cf' true = .ok d₂ ∧
      getV d₁ keys.POSITIONS = getV (mkData n nE nS pos c nb cellO offs batchO) keys.POSITIONS ∧
      getV d₂ keys.POSITIONS = getV (mkData n nE nS pos c nb cellO offs batchO) keys.POSITIONS ∧
      getV d₁ keys.CELL = getV (mkData n nE nS pos c nb cellO offs batchO) keys.CELL ∧
      getV d₂ keys.CELL = getV (mkData n nE nS pos c nb cellO offs batchO) keys.CELL ∧
      (∀ e j, evalQ ρ (edgeVec d₂ e j) = evalQ ρ (edgeVec d₁ e j)) ∧
      (∀ e, linalgNorm ρ.toR (edgeLenVec d₂) e = linalgNorm ρ.toR (edgeLenVec d₁) e) := by
  rcases cellO with _ | C <;> rcases batchO with _ | ⟨bf, pf⟩ <;>
    refine ⟨_, _, rfl, rfl, ?_, ?_, ?_, ?_, ?_, fun e => linalgNorm_congr ρ _ _ e (fun i => ?_)⟩ <;>
    simp [mkData, getV, dinsert, hasKey, edgeVec, edgeLenVec, keys.POSITIONS,
      keys.EDGE_INDEX, keys.BATCH, keys.BATCH_PTR, keys.CELL, keys.CELL_OFFSETS,
      keys.EDGE_LENGTH, keys.EDGE_VECTOR, keys.STRAIN,
      evalQ_strainedPos_zero ρ hρ, evalQ_strainedCell_zero ρ hρ, evalQ_sum3] <;>
    first
    | rfl
    | (intro e j
       by_cases hb : batchMaxZero n bf = true <;>
         simp [hb, evalQ_strainedPos_zero ρ hρ, evalQ_strainedCell_zero ρ hρ, evalQ_sum3])
    | (by_cases hb : batchMaxZero n bf = true <;>
         simp [hb, evalQ_strainedPos_zero ρ hρ, evalQ_strainedCell_zero ρ hρ, evalQ_sum3])

theorem strain_identity_at_zero_witness :
    ∃ d₁ d₂,
      compute_edge_data (mkData 2 1 1 (fun a _ => Expr.const a) (fun _ => 0) (fun _ => 1)
        none (fun _ _ => Expr.const 0) none) true false = .ok d₁ ∧
      compute_edge_data (mkData 2 1 1 (fun a _ => Expr.const a) (fun _ => 0) (fun _ => 1)
        none (fun _ _ => Expr.const 0) none) true true = .ok d₂ ∧
      (∀ e j, evalQ ptZero (edgeVec d₂ e j) = evalQ ptZero (edgeVec d₁ e j)) := by
  obtain ⟨d₁, d₂, h1, h2, _, _, _, _, h7, _⟩ :=
    strain_identity_at_zero 2 1 1 (fun a _ => Expr.const a) (fun _ => 0) (fun _ => 1)
      (fun _ _ => Expr.const 0) none none true true ptZero (fun _ _ _ => rfl)
  exact ⟨d₁, d₂, h1, h2, h7⟩

/-- C6: when `compute_virial` is requested, the `(S, 3, 3)` strain is the
gradient-tracked leaf tensor (one 3×3 slot per structure); the deformation
symmetrizes it as `0.5 * (strain + strainᵀ)`, broadcasts each structure's
symmetrized strain to its member atoms through the `batch` index, maps
positions to `pos + pos · strain_sym` (per-atom batched matrix product with
that atom's structure's strain), and maps the cell, when present, to
`cell + cell · strain_sym`. -/
theorem strain_application_spec
    (strain : ℕ → Fin 3 → Fin 3 → Expr) (batch : ℕ → ℕ)
    (pos : ℕ → Fin 3 → Expr) (cell : ℕ → Fin 3 → Fin 3 → Expr)
    (cellO : Option (ℕ → Fin 3 → Fin 3 → Expr))
    (n nE nS : ℕ) (c nb : ℕ → ℕ) (offs : ℕ → Fin 3 → Expr) (bf pf : ℕ → ℕ)
    (cf : Bool) (ρ : Pt) (a g : ℕ) (i0 j : Fin 3) :
    (evalQ ρ (strainedPos strain batch pos a j) =
      evalQ ρ (pos a j) + ∑ i, evalQ ρ (pos a i) *
        ((1 / 2) * (evalQ ρ (strain (batch a) i j) + evalQ ρ (strain (batch a) j i)))) ∧
    (evalQ ρ (strainedCell strain cell g i0 j) =
      evalQ ρ (cell g i0 j) + ∑ t, evalQ ρ (cell g i0 t) *
        ((1 / 2) * (evalQ ρ (strain g t j) + evalQ ρ (strain g j t)))) ∧
    (∃ d', compute_edge_data (mkData n nE nS pos c nb cellO offs none) cf true = .ok d' ∧
      getV d' keys.STRAIN = some (.mat3 1 (fun g i j => Expr.strainC g i j))) ∧
    (∃ d', compute_edge_data (mkData n nE nS pos c nb cellO offs (some (bf, pf))) cf true = .ok d' ∧
      getV d' keys.STRAIN = some (.mat3 nS (fun g i j => Expr.strainC g i j))) := by
  refine ⟨?_, ?_, ?_, ?_⟩
  · simp [strainedPos, symmStrain, evalQ_sum3]
  · simp [strainedCell, symmStrain, evalQ_sum3]
  · rcases cellO with _ | C <;>
      exact ⟨_, rfl, by
        simp [mkData, getV, dinsert, hasKey, keys.POSITIONS, keys.EDGE_INDEX,
          keys.BATCH, keys.BATCH_PTR, keys.CELL, keys.CELL_OFFSETS,
          keys.EDGE_LENGTH, keys.EDGE_VECTOR, keys.STRAIN]⟩
  · rcases cellO with _ | C <;>
      exact ⟨_, rfl, by
        simp [mkData, getV, dinsert, hasKey, keys.POSITIONS, keys.EDGE_INDEX,
          keys.BATCH, keys.BATCH_PTR, keys.CELL, keys.CELL_OFFSETS,
          keys.EDGE_LENGTH, keys.EDGE_VECTOR, keys.STRAIN]⟩

/-- C7 counterexample: the claim's sign convention fails on the code.  A
2-atom structure with identity cell, one edge with center 0 / neighbor 1
and zero offset has edge length 1/4; translating atom 1 (the neighbor of
the edge) by one lattice vector `k = (1,0,0)` and **adding** `k` to the
offsets of edges where it is the neighbor — the adjustment the claim
prescribes — changes the edge length to 9/4.  (The code computes
`v = pos[center] - pos[neighbor] - offsets · cell`, so preservation needs
`k` **subtracted** where the atom is the neighbor and added where it is
the center.) -/
def shiftData : Dict :=
  mkData 2 1 1
    (fun a j => Expr.const (if a = 0 then 0 else if j = 0 then 1 / 4 else 0))
    (fun _ => 0) (fun _ => 1)
    (some (fun _ i j => Expr.const (if i = j then 1 else 0)))
    (fun _ _ => Expr.const 0) none

def shiftDataClaim : Dict :=
  mkData 2 1 1
    (fun a j => Expr.const (if a = 0 then 0 else if j = 0 then 1 / 4 + 1 else 0))
    (fun _ => 0) (fun _ => 1)
    (some (fun _ i j => Expr.const (if i = j then 1 else 0)))
    (fun _ i => Expr.const (if i = 0 then 1 else 0)) none

def shiftOut : Dict :=
  match compute_edge_data shiftData true false with
  | .ok d => d
  | .error _ => []

def shiftOutClaim : Dict :=
  match compute_edge_data shiftDataClaim true false with
  | .ok d => d
  | .error _ => []

theorem periodic_shift_claim_counterexample :
    compute_edge_data shiftData true false = .ok shiftOut ∧
    compute_edge_data shiftDataClaim true false = .ok shiftOutClaim ∧
    linalgNorm ptZero.toR (edgeLenVec shiftOut) 0 = 1 / 4 ∧
    linalgNorm ptZero.toR (edgeLenVec shiftOutClaim) 0 = 9 / 4 ∧
    linalgNorm ptZero.toR (edgeLenVec shiftOut) 0 ≠
      linalgNorm ptZero.toR (edgeLenVec shiftOutClaim) 0 := by
  have h1 : linalgNorm ptZero.toR (edgeLenVec shiftOut) 0 = 1 / 4 := by
    have h : linalgNorm ptZero.toR (edgeLenVec shiftOut) 0 = Real.sqrt ((1 / 4 : ℝ) ^ 2) := by
      simp [linalgNorm, shiftOut, shiftData, compute_edge_data, mkData, getV, dinsert, hasKey,
        edgeLenVec, evalR, sum3, keys.POSITIONS, keys.EDGE_INDEX, keys.BATCH, keys.BATCH_PTR,
        keys.CELL, keys.CELL_OFFSETS, keys.EDGE_LENGTH, keys.EDGE_VECTOR, keys.STRAIN]
    rw [h, Real.sqrt_sq (by norm_num)]
  have h2 : linalgNorm ptZero.toR (edgeLenVec shiftOutClaim) 0 = 9 / 4 := by
    have h : linalgNorm ptZero.toR (edgeLenVec shiftOutClaim) 0 = Real.sqrt ((9 / 4 : ℝ) ^ 2) := by
      simp [linalgNorm, shiftOutClaim, shiftDataClaim, compute_edge_data, mkData, getV, dinsert,
        hasKey, edgeLenVec, evalR, sum3, keys.POSITIONS, keys.EDGE_INDEX, keys.BATCH,
        keys.BATCH_PTR, keys.CELL, keys.CELL_OFFSETS, keys.EDGE_LENGTH, keys.EDGE_VECTOR,
        keys.STRAIN]
      norm_num
    rw [h, Real.sqrt_sq (by norm_num)]
  refine ⟨rfl, rfl, h1, h2, ?_⟩
  rw [h1, h2]
  norm_num

/-- C7 (amended): for every periodic structure, every atom `α` and every
integer triple `k`, translating atom `α` by the lattice combination
`k · cell` and adjusting each incident edge's `cell_offsets` by `k` —
**added** for edges where `α` is the center and **subtracted** where `α`
is the neighbor — leaves `edge_length` unchanged for all edges. -/
theorem periodic_shift_invariance
    (n nE : ℕ) (pos : ℕ → Fin 3 → Expr) (c nb : ℕ → ℕ) (offs : ℕ → Fin 3 → Expr)
    (C : ℕ → Fin 3 → Fin 3 → Expr) (α : ℕ) (k : Fin 3 → ℤ) (ρ : Pt) (cf : Bool)
    (e : ℕ) (he : e < nE) :
    ∃ d d',
      compute_edge_data (mkData n nE 1 pos c nb (some C) offs none) cf false = .ok d ∧
      compute_edge_data (mkData n nE 1
        (fun a j => if a = α then pos a j + sum3 (fun i => Expr.const (k i : ℚ) * C 0 i j) else pos a j)
        c nb (some C)
        (fun e' i => offs e' i
          + (if c e' = α then Expr.const (k i : ℚ) else Expr.const 0)
          - (if nb e' = α then Expr.const (k i : ℚ) else Expr.const 0))
        none) cf false = .ok d' ∧
      linalgNorm ρ.toR (edgeLenVec d') e = linalgNorm ρ.toR (edgeLenVec d) e := by
  refine ⟨_, _, rfl, rfl, linalgNorm_congr ρ _ _ e (fun i => ?_)⟩
  simp only [mkData, getV, dinsert, hasKey, edgeLenVec, keys.POSITIONS, keys.EDGE_INDEX,
    keys.BATCH, keys.BATCH_PTR, keys.CELL, keys.CELL_OFFSETS, keys.EDGE_LENGTH,
    keys.EDGE_VECTOR, keys.STRAIN]
  by_cases hc : c e = α <;> by_cases hn : nb e = α <;>
    simp [hc, hn, evalQ_sum3, Fin.sum_univ_three] <;> ring

theorem periodic_shift_invariance_witness :
    ∃ d d',
      compute_edge_data (mkData 2 1 1 (fun a _ => Expr.const a) (fun _ => 0) (fun _ => 1)
        (some (fun _ i j => Expr.const (if i = j then 1 else 0)))
        (fun _ _ => Expr.const 0) none) true false = .ok d ∧
      compute_edge_data (mkData 2 1 1
        (fun a j => if a = 1 then (fun a _ => Expr.const (a : ℚ)) a j
          + sum3 (fun i => Expr.const ((fun _ => (1 : ℤ)) i : ℚ)
            * (fun _ i j => Expr.const (if i = j then 1 else 0)) 0 i j)
          else (fun a _ => Expr.const (a : ℚ)) a j)
        (fun _ => 0) (fun _ => 1)
        (some (fun _ i j => Expr.const (if i = j then 1 else 0)))
        (fun e' i => (fun _ _ => Expr.const (0 : ℚ)) e' i
          + (if (fun _ => (0 : ℕ)) e' = 1 then Expr.const (((fun _ => (1 : ℤ)) i : ℚ)) else Expr.const 0)
          - (if (fun _ => (1 : ℕ)) e' = 1 then Expr.const (((fun _ => (1 : ℤ)) i : ℚ)) else Expr.const 0))
        none) true false = .ok d' ∧
      linalgNorm ptZero.toR (edgeLenVec d') 0 = linalgNorm ptZero.toR (edgeLenVec d) 0 :=
  periodic_shift_invariance 2 1 (fun a _ => Expr.const a) (fun _ => 0) (fun _ => 1)
    (fun _ _ => Expr.const 0) (fun _ i j => Expr.const (if i = j then 1 else 0))
    1 (fun _ => 1) ptZero true 0 (by decide)

/-- C1 (code evaluation at the failing input): when the computed total
energy does not depend on positions (here the constant energy `1`), the
property engine does **not** return zeros — the `torch.autograd.grad` call
is made without `allow_unused=True` (`compute_forces_only`, basic.py lines
150-156), so it raises `RuntimeError`; the `if pos_grad is None` zero
fallback of lines 157-158 is unreachable.  Likewise for the virial/strain
path. -/
theorem disconnected_graph_raises :
    compute_forces_only 1 (fun _ => Expr.const 1) 2 true ptZero =
      .error "RuntimeError: One of the differentiated Tensors appears to not have been used in the graph. Set allow_unused=True if this is the desired behavior." ∧
    compute_virial_only 1 (fun _ => Expr.const 1) 1 true ptZero =
      .error "RuntimeError: One of the differentiated Tensors appears to not have been used in the graph. Set allow_unused=True if this is the desired behavior." :=
  ⟨rfl, rfl⟩

/-- C5: for every energy in whose graph both the positions and the strain
leaves participate, the single combined backward pass over
`[pos, strain]` (`compute_forces_and_virial`) returns exactly the results
of the two separate single-property calls (`compute_forces_only`,
`compute_virial_only`) on the same input. -/
theorem combined_mode_equals_separate (nS : ℕ) (energy : ℕ → Expr) (nAtoms nGraphs : ℕ)
    (training : Bool) (ρ : Pt)
    (hp : usesLeaf nS energy .pos = true) (hs : usesLeaf nS energy .strain = true) :
    ∃ F V,
      compute_forces_and_virial nS energy nAtoms nGraphs training ρ = .ok (F, V) ∧
      compute_forces_only nS energy nAtoms training ρ = .ok F ∧
      compute_virial_only nS energy nGraphs training ρ = .ok V := by
  refine ⟨fun a i => (-1 : ℚ) * vjpPos nS energy (fun _ => 1) ρ a i,
    fun g i j => (-1 : ℚ) * vjpStrain nS energy (fun _ => 1) ρ g i j, ?_, ?_, ?_⟩ <;>
    simp [compute_forces_and_virial, compute_forces_only, compute_virial_only,
      torch_autograd_grad, hp, hs, Bind.bind, Except.bind, pure, Except.pure]

theorem combined_mode_equals_separate_witness :
    ∃ F V,
      compute_forces_and_virial 1 (fun _ => Expr.posC 0 0 * Expr.strainC 0 0 0)
        1 1 true ptZero = .ok (F, V) ∧
      compute_forces_only 1 (fun _ => Expr.posC 0 0 * Expr.strainC 0 0 0)
        1 true ptZero = .ok F ∧
      compute_virial_only 1 (fun _ => Expr.posC 0 0 * Expr.strainC 0 0 0)
        1 true ptZero = .ok V :=
  combined_mode_equals_separate 1 (fun _ => Expr.posC 0 0 * Expr.strainC 0 0 0)
    1 1 true ptZero (by decide) (by decide)

/-- C8: whenever `compute_forces_only` succeeds, the returned forces are
`-1` times the true gradient, with respect to positions, of the energies
weighted uniformly by `1` — i.e. along every position component `(a, i)`,
the sum of the per-structure energy vector (the implicit sum the
unit-weighted backward pass differentiates) has derivative `-(F a i)` at
the current positions. -/
theorem forces_are_negative_gradient_of_energy_sum (nS : ℕ) (energy : ℕ → Expr) (nAtoms : ℕ)
    (training : Bool) (ρ : Pt) (F : ℕ → Fin 3 → ℚ)
    (hok : compute_forces_only nS energy nAtoms training ρ = .ok F)
    (a : ℕ) (i : Fin 3) :
    HasDerivAt (fun t => sumEnergyR nS energy (updPos ρ.toR a i t))
      (-(F a i : ℝ)) (ρ.toR.posv a i) := by
  by_cases h : usesLeaf nS energy .pos = true
  · have hF : F = fun a i => -(vjpPos nS energy (fun _ => 1) ρ a i) := by
      simp [compute_forces_only, torch_autograd_grad, h, Bind.bind, Except.bind,
        pure, Except.pure] at hok
      exact hok.symm
    have hsum := HasDerivAt.sum
      (fun k (_ : k ∈ Finset.range nS) => evalR_updPos_hasDerivAt ρ.toR a i (energy k))
    simp only [sumEnergyR]
    convert hsum using 1
    rw [hF]
    simp only [vjpPos, dPosR_toR, one_mul]
    push_cast
    ring
  · exfalso
    simp [compute_forces_only, torch_autograd_grad, h, Bind.bind, Except.bind,
      pure, Except.pure] at hok

/-- Concrete evaluation for the force-gradient theorem: one atom at
`x = 3`, energy `x * x`; the pipeline returns force `-6 = -(d(x^2)/dx)`. -/
def c8F : ℕ → Fin 3 → ℚ :=
  match compute_forces_only 1 (fun _ => Expr.posC 0 0 * Expr.posC 0 0) 1 true
      ⟨fun _ _ => 3, fun _ _ _ => 0⟩ with
  | .ok f => f
  | .error _ => fun _ _ => 0

theorem forces_are_negative_gradient_of_energy_sum_witness :
    compute_forces_only 1 (fun _ => Expr.posC 0 0 * Expr.posC 0 0) 1 true
      ⟨fun _ _ => 3, fun _ _ _ => 0⟩ = .ok c8F ∧
    c8F 0 0 = -6 ∧
    HasDerivAt (fun t => sumEnergyR 1 (fun _ => Expr.posC 0 0 * Expr.posC 0 0)
        (updPos (Pt.toR ⟨fun _ _ => 3, fun _ _ _ => 0⟩) 0 0 t))
      (-(c8F 0 0 : ℝ)) ((Pt.toR ⟨fun _ _ => 3, fun _ _ _ => 0⟩).posv 0 0) :=
  ⟨rfl, by
    simp [c8F, compute_forces_only, torch_autograd_grad, Bind.bind, Except.bind, pure,
      Except.pure, vjpPos, dPosQ, evalQ, usesLeaf, usesPos, Finset.sum_range_succ]
    norm_num,
    forces_are_negative_gradient_of_energy_sum 1 (fun _ => Expr.posC 0 0 * Expr.posC 0 0)
      1 true ⟨fun _ _ => 3, fun _ _ _ => 0⟩ c8F rfl 0 0⟩

/-- C10: the key set of the mapping returned by the property-derivation
step is exactly: `forces` iff `compute_forces`, `virial` iff
`compute_virial`, plus the entries of `extra_properties`, the latter copied
verbatim from the batch; with both flags false and `extra_properties`
empty or `None` the mapping is empty; and the step itself never adds an
`energy` key (an `energy` key can only come from `extra_properties`). -/
theorem property_derivation_keys
    (data : Dict) (cf cv training : Bool) (extra : Option (List String)) (ρ : Pt)
    (nS : ℕ) (energy : ℕ → Expr) (nA : ℕ) (posf : ℕ → Fin 3 → Expr)
    (nG : ℕ) (strainf : ℕ → Fin 3 → Fin 3 → Expr)
    (hen : getV data keys.TOTAL_ENERGY = some (.scal nS energy))
    (hpos : getV data keys.POSITIONS = some (.vec3 nA posf))
    (hstr : getV data keys.STRAIN = some (.mat3 nG strainf))
    (hfp : cf = true → usesLeaf nS energy .pos = true)
    (hfs : cv = true → usesLeaf nS energy .strain = true)
    (hex : ∀ k ∈ extra.getD [], hasKey data k = true) :
    ∃ r, compute_properties data cf cv training extra ρ = .ok r ∧
      (∀ k, hasKey r k = true ↔
        ((cf = true ∧ k = keys.FORCES) ∨ (cv = true ∧ k = keys.VIRIAL) ∨
          k ∈ extra.getD [])) ∧
      (∀ k ∈ extra.getD [], getV r k = getV data k) ∧
      (cf = false → cv = false → extra.getD [] = [] → r = []) ∧
      (hasKey r keys.TOTAL_ENERGY = true → keys.TOTAL_ENERGY ∈ extra.getD []) := by
  obtain ⟨r, h1, h2, h3, h4⟩ :=
    compute_properties_spec data cf cv training extra ρ nS energy nA posf nG strainf
      hen hpos hstr hfp hfs hex
  refine ⟨r, h1, h2, h3, h4, ?_⟩
  intro hk
  rcases (h2 keys.TOTAL_ENERGY).mp hk with ⟨_, h⟩ | ⟨_, h⟩ | h
  · exact absurd h (by simp [keys.TOTAL_ENERGY, keys.FORCES])
  · exact absurd h (by simp [keys.TOTAL_ENERGY, keys.VIRIAL])
  · exact h

theorem property_derivation_keys_witness :
    ∃ r, compute_properties
        [(keys.TOTAL_ENERGY, .scal 1 (fun _ => Expr.posC 0 0 * Expr.strainC 0 0 0)),
         (keys.POSITIONS, .vec3 1 (fun a i => Expr.posC a i)),
         (keys.STRAIN, .mat3 1 (fun g i j => Expr.strainC g i j)),
         ("atomic_charges", .scal 1 (fun _ => Expr.const 7))]
        true true true (some ["atomic_charges"]) ptZero = .ok r ∧
      (∀ k, hasKey r k = true ↔
        ((true = true ∧ k = keys.FORCES) ∨ (true = true ∧ k = keys.VIRIAL) ∨
          k ∈ ["atomic_charges"])) := by
  obtain ⟨r, h1, h2, _⟩ :=
    property_derivation_keys
      [(keys.TOTAL_ENERGY, .scal 1 (fun _ => Expr.posC 0 0 * Expr.strainC 0 0 0)),
       (keys.POSITIONS, .vec3 1 (fun a i => Expr.posC a i)),
       (keys.STRAIN, .mat3 1 (fun g i j => Expr.strainC g i j)),
       ("atomic_charges", .scal 1 (fun _ => Expr.const 7))]
      true true true (some ["atomic_charges"]) ptZero
      1 (fun _ => Expr.posC 0 0 * Expr.strainC 0 0 0)
      1 (fun a i => Expr.posC a i) 1 (fun g i j => Expr.strainC g i j)
      rfl rfl rfl (fun _ => by decide) (fun _ => by decide) (by decide)
  exact ⟨r, h1, h2⟩

/-- C2: the single forward entry point `(batch, compute_forces,
compute_virial)` returns a mapping containing `energy`; `forces` when
`compute_forces` is true; `virial` when `compute_virial` is true; plus the
declared extra properties.  The learned stages and output modules are
external collaborators; the spec-modelled `OutputModuleContract` states
what the (absent) output module guarantees after the stages have run, and
the flags are assumed to be exercised only when the corresponding autograd
leaf participates in the energy graph (else C1's RuntimeError applies). -/
theorem forward_returns_energy_forces_virial
    (m : BaseModel) (data d1 d2 : Dict) (cf cv : Bool) (ρ : Pt)
    (nS : ℕ) (energy : ℕ → Expr) (nA : ℕ) (posf : ℕ → Fin 3 → Expr)
    (nG : ℕ) (strainf : ℕ → Fin 3 → Fin 3 → Expr)
    (hced : compute_edge_data data cf cv = .ok d1)
    (hrun : m.module_list.foldl (fun d f => f d) d1 = d2)
    (hcontract : OutputModuleContract m d2 nS energy)
    (hpos : getV d2 keys.POSITIONS = some (.vec3 nA posf))
    (hstr : getV d2 keys.STRAIN = some (.mat3 nG strainf))
    (hfp : cf = true → usesLeaf nS energy .pos = true)
    (hfs : cv = true → usesLeaf nS energy .strain = true) :
    ∃ r, m.forward data cf cv ρ = .ok r ∧
      hasKey r keys.TOTAL_ENERGY = true ∧
      (cf = true → hasKey r keys.FORCES = true) ∧
      (cv = true → hasKey r keys.VIRIAL = true) ∧
      (∀ k ∈ m.extra_properties, hasKey r k = true) := by
  obtain ⟨hdecl, hen, hexAll⟩ := hcontract
  obtain ⟨r, hr, hkeys, hin, _⟩ :=
    compute_properties_spec d2 cf cv m.training (some m.extra_properties) ρ
      nS energy nA posf nG strainf hen hpos hstr hfp hfs (by simpa using hexAll)
  refine ⟨r, ?_, ?_, ?_, ?_, ?_⟩
  · simp [BaseModel.forward, hced, hrun, Bind.bind, Except.bind, hr]
  · exact (hkeys keys.TOTAL_ENERGY).mpr (Or.inr (Or.inr (by simpa using hdecl)))
  · intro h
    exact (hkeys keys.FORCES).mpr (Or.inl ⟨h, rfl⟩)
  · intro h
    exact (hkeys keys.VIRIAL).mpr (Or.inr (Or.inl ⟨h, rfl⟩))
  · intro k hk
    exact (hkeys k).mpr (Or.inr (Or.inr (by simpa using hk)))

/-- Concrete model for the forward-entry witness: one learned stage that
writes a per-structure energy using both autograd leaves, declaring
`energy` as its extra property. -/
def c2energy : ℕ → Expr := fun _ => Expr.posC 0 0 * Expr.strainC 0 0 0

def c2model : BaseModel :=
  ⟨[fun d => dinsert d keys.TOTAL_ENERGY (.scal 1 c2energy)], [keys.TOTAL_ENERGY], true⟩

def c2data : Dict :=
  mkData 1 0 1 (fun a i => Expr.posC a i) (fun _ => 0) (fun _ => 0)
    none (fun _ _ => Expr.const 0) none

def c2d1 : Dict :=
  match compute_edge_data c2data true true with
  | .ok d => d
  | .error _ => []

def c2d2 : Dict := c2model.module_list.foldl (fun d f => f d) c2d1

theorem forward_returns_energy_forces_virial_witness :
    ∃ r, c2model.forward c2data true true ptZero = .ok r ∧
      hasKey r keys.TOTAL_ENERGY = true ∧
      (true = true → hasKey r keys.FORCES = true) ∧
      (true = true → hasKey r keys.VIRIAL = true) ∧
      (∀ k ∈ c2model.extra_properties, hasKey r k = true) :=
  forward_returns_energy_forces_virial c2model c2data c2d1 c2d2 true true ptZero
    1 c2energy 1 (fun a i => Expr.posC a i) 1 (fun g i j => Expr.strainC g i j)
    rfl rfl ⟨by decide, rfl, by decide⟩ rfl rfl
    (fun _ => by decide) (fun _ => by decide)

end Xequinet
